import Mathlib

/-!
Verification of the respiratory-biofeedback target-generation and
calibration core (`src/core/target_generator.py`,
`respyra/core/runner.py`, `src/core/breath_belt.py`).

Python floats are modelled as exact numbers: structure fields and the
calibration arithmetic live in `ℚ` (every operation there is ring
arithmetic, `min`/`max` and comparisons, so the float program follows the
rational one exactly up to rounding), while the waveform evaluation lives
in `ℝ` because it applies `sin` and `sqrt`.  A Python statement that can
raise is modelled with `Option`/`Except`.
-/

namespace Respyra

/-- One constant-frequency segment of a breathing-target pattern
(`SegmentDef` in `src/core/target_generator.py`): a frequency in Hz and an
integer number of complete sinusoidal cycles. -/
structure SegmentDef where
  freq_hz : ℚ
  n_cycles : ℤ
deriving DecidableEq

/-- Segment duration in seconds: `n_cycles / freq_hz`. -/
def SegmentDef.duration (s : SegmentDef) : ℚ :=
  (s.n_cycles : ℚ) / s.freq_hz

/-- A named experimental condition (`ConditionDef` in
`src/core/target_generator.py`).  `segments` defaults to the empty list and
`feedback_gain` to `1.0`, exactly as the Python dataclass defaults. -/
structure ConditionDef where
  name : String
  segments : List SegmentDef := []
  feedback_gain : ℚ := 1
deriving DecidableEq

/-- Total duration of one pass through all segments:
`sum(seg.duration for seg in self.segments)`. -/
def ConditionDef.total_duration (c : ConditionDef) : ℚ :=
  (c.segments.map SegmentDef.duration).sum

/-- `TargetGenerator.__init__`: stores the condition together with the
calibrated center and amplitude (floats in the source, reals here because
`get_target` feeds them into `sin`). -/
structure TargetGenerator where
  condition : ConditionDef
  center : ℝ
  amplitude : ℝ

/-- Python float modulo `t % D`: raises `ZeroDivisionError` when `D == 0`
(modelled as `none`), otherwise returns `t - D * floor(t / D)`, the exact
value Python computes (the result carries the sign of the divisor). -/
noncomputable def pymod (t D : ℝ) : Option ℝ :=
  if D = 0 then none else some (t - D * (⌊t / D⌋ : ℝ))

/-- The segment-walking loop of `TargetGenerator.get_target`: walk the
ordered segments accumulating `elapsed_in_segments`; the first segment with
`t_wrapped < seg_end` is active and yields
`center + amplitude * sin(2 * pi * freq_hz * t_local)` with
`t_local = t_wrapped - elapsed_in_segments`; if the walk exhausts the
segments it falls through to `center`. -/
noncomputable def segmentWalk (center amplitude t_wrapped : ℝ) :
    List SegmentDef → ℝ → ℝ
  | [], _ => center
  | seg :: rest, elapsed =>
      if t_wrapped < elapsed + (seg.duration : ℝ) then
        center + amplitude *
          Real.sin (2 * Real.pi * (seg.freq_hz : ℝ) * (t_wrapped - elapsed))
      else
        segmentWalk center amplitude t_wrapped rest (elapsed + (seg.duration : ℝ))

/-- `TargetGenerator.get_target(t)`: wrap `t` modulo the total pattern
duration (a `ZeroDivisionError`, i.e. `none`, when the total duration is
zero), then walk the segments.  Time `t` and the result are reals. -/
noncomputable def TargetGenerator.get_target (g : TargetGenerator) (t : ℝ) :
    Option ℝ :=
  match pymod t (g.condition.total_duration : ℝ) with
  | none => none
  | some t_wrapped =>
      some (segmentWalk g.center g.amplitude t_wrapped g.condition.segments 0)

/-- Sum of the durations of the first `i` segments: the value of
`elapsed_in_segments` when the walk reaches segment `i`. -/
def segStart (segs : List SegmentDef) (i : ℕ) : ℚ :=
  ((segs.take i).map SegmentDef.duration).sum

/-- `calibrate_from_baseline` in `src/core/target_generator.py`: empty
input yields the fixed fallback `(5.0, 2.0)`; otherwise
`center = (max + min) / 2` and
`amplitude = max((max - min) / 2, min_amplitude)` (the source default for
`min_amplitude` is `0.5`). -/
def calibrate_from_baseline (force_samples : List ℚ) (min_amplitude : ℚ) :
    ℚ × ℚ :=
  match force_samples with
  | [] => (5, 2)
  | x :: xs =>
      let lo := xs.foldl min x
      let hi := xs.foldl max x
      ((hi + lo) / 2, max ((hi - lo) / 2) min_amplitude)

/-- `apply_gain` in `respyra/core/runner.py`: with `gain == 1.0` return a
fresh copy of the buffer (`list(buffer)`, modelled as `List.map id`),
otherwise the elementwise transform `center + gain * (f - center)`. -/
def apply_gain (buffer : List ℚ) (gain center : ℚ) : List ℚ :=
  if gain = 1 then buffer.map id
  else buffer.map (fun f => center + gain * (f - center))

/-- Python `int(x)` on a real value: truncation toward zero. -/
noncomputable def pytrunc (x : ℝ) : ℤ :=
  if x < 0 then -⌊-x⌋ else ⌊x⌋

/-- `colorsys.hsv_to_rgb` from the Python standard library, as called by
`graded_dot_color`: sector index `i = int(h*6) % 6`, fractional part `f`,
and the six `(r, g, b)` cases.  The final case is `i == 5` (the sector
index is always in `0..5`). -/
noncomputable def hsv_to_rgb (h s v : ℝ) : ℝ × ℝ × ℝ :=
  if s = 0 then (v, v, v)
  else
    let i0 : ℤ := pytrunc (h * 6)
    let f : ℝ := h * 6 - (i0 : ℝ)
    let p : ℝ := v * (1 - s)
    let q : ℝ := v * (1 - s * f)
    let t : ℝ := v * (1 - s * (1 - f))
    let i : ℤ := i0 % 6
    if i = 0 then (v, t, p)
    else if i = 1 then (q, v, p)
    else if i = 2 then (p, v, t)
    else if i = 3 then (p, q, v)
    else if i = 4 then (t, p, q)
    else (v, p, q)

/-- `graded_dot_color` in `respyra/core/runner.py`: normalize the error
magnitude by `max_error` and clamp to `[0, 1]`, compress with a square
root (`t ** 0.5` on a nonnegative float is `sqrt`), map to a hue on the
green-to-red third of the wheel, convert to RGB and rescale each channel
to PsychoPy's `[-1, 1]` color space. -/
noncomputable def graded_dot_color (error max_error : ℝ) : ℝ × ℝ × ℝ :=
  let t0 : ℝ := min (|error| / max_error) 1
  let t1 : ℝ := Real.sqrt t0
  let hue : ℝ := (1 - t1) / 3
  let c := hsv_to_rgb hue 1 1
  (c.1 * 2 - 1, c.2.1 * 2 - 1, c.2.2 * 2 - 1)

/-- Python `int(q)` on an exact rational value: truncation toward zero. -/
def pytruncQ (q : ℚ) : ℤ :=
  if q < 0 then -⌊-q⌋ else ⌊q⌋

/-- The result-computation tail of `run_range_calibration` in
`respyra/core/runner.py` (the part after the frame loop), as a pure
function of the collected force samples and the `RangeCalConfig`
parameters.  Empty input takes the defaults path in the source (center 5,
amplitude 2, display range untouched), modelled as `none`; otherwise the
source sorts the samples, clips by index arithmetic
(`lo_idx = int(n * percentile_lo / 100)`,
`hi_idx = int(n * percentile_hi / 100) - 1`, both clamped), and returns
`(range_center, global_amplitude, y_min, y_max)`. -/
def range_cal_results (range_cal_forces : List ℚ)
    (percentile_lo percentile_hi : ℤ) (scale : ℚ) :
    Option (ℚ × ℚ × ℚ × ℚ) :=
  if range_cal_forces = [] then none
  else
    let sorted_forces := range_cal_forces.insertionSort (· ≤ ·)
    let n : ℤ := sorted_forces.length
    let lo_idx0 : ℤ := pytruncQ (((n * percentile_lo : ℤ) : ℚ) / 100)
    let hi_idx0 : ℤ := pytruncQ (((n * percentile_hi : ℤ) : ℚ) / 100) - 1
    let lo_idx : ℤ := max 0 (min lo_idx0 (n - 1))
    let hi_idx : ℤ := max lo_idx (min hi_idx0 (n - 1))
    let global_min := sorted_forces.getD lo_idx.toNat 0
    let global_max := sorted_forces.getD hi_idx.toNat 0
    let raw_amplitude := (global_max - global_min) / 2
    let global_amplitude := max (raw_amplitude * scale) (1 / 2)
    let range_center := (global_max + global_min) / 2
    let padding := (global_max - global_min) * (1 / 5)
    some (range_center, global_amplitude,
      global_min - padding, global_max + padding)

/-- The consumer-visible state of a `BreathBelt` channel
(`src/core/breath_belt.py`): the thread-safe queue of
`(timestamp, force)` samples and the sticky `_error` slot the reader
thread fills on a fatal fault. -/
structure BeltState where
  queue : List (ℚ × ℚ)
  error : Option String
deriving DecidableEq

/-- Reader-thread transition: `self._queue.put((timestamp, force_value))`. -/
def BeltState.enqueue (s : BeltState) (sample : ℚ × ℚ) : BeltState :=
  ⟨s.queue ++ [sample], s.error⟩

/-- Reader-thread transition on a fatal read fault: `self._error = exc`
(sticky; nothing ever clears it). -/
def BeltState.recordError (s : BeltState) (e : String) : BeltState :=
  ⟨s.queue, some e⟩

/-- `BreathBelt.get_all`: `_check_error()` first — if the reader thread has
recorded an error the call raises `BreathBeltError` and the object state is
unchanged; otherwise drain and return every queued sample in FIFO order. -/
def BeltState.get_all (s : BeltState) :
    Except String (List (ℚ × ℚ)) × BeltState :=
  match s.error with
  | some e => (Except.error ("Reader thread failed: " ++ e), s)
  | none => (Except.ok s.queue, ⟨[], none⟩)

/-- `BreathBelt.get_latest`: `_check_error()` first, then drain the whole
queue keeping only the most recent sample (`none` if the queue is empty). -/
def BeltState.get_latest (s : BeltState) :
    Except String (Option (ℚ × ℚ)) × BeltState :=
  match s.error with
  | some e => (Except.error ("Reader thread failed: " ++ e), s)
  | none => (Except.ok s.queue.getLast?, ⟨[], none⟩)

/-- Python dict assignment `condition_map[c.name] = c` on an association
list: replace the value at the key if present, else append. -/
def updateAssoc (m : List (String × ConditionDef)) (k : String)
    (v : ConditionDef) : List (String × ConditionDef) :=
  match m with
  | [] => [(k, v)]
  | (k1, v1) :: rest =>
      if k1 = k then (k, v) :: rest else (k1, v1) :: updateAssoc rest k v

/-- Python dict lookup `condition_map[c.name]` / `c.name in condition_map`
on an association list. -/
def lookupName (m : List (String × ConditionDef)) (k : String) :
    Option ConditionDef :=
  match m with
  | [] => none
  | (k1, v1) :: rest => if k1 = k then some v1 else lookupName rest k

/-- The condition-map-building loop of `run_experiment` in
`respyra/core/runner.py` (executed before any trial runs): for each
condition, if its name is already mapped to a condition with a different
`feedback_gain` or different `segments`, raise `ValueError`; otherwise
store it under its name (overwriting).  The source additionally skips the
comparison when the mapped entry is the very same object (`c is not
condition_map[c.name]`); an identical object always has equal fields, so
the value-level comparison below is extensionally the same check. -/
def buildConditionMapFrom (m : List (String × ConditionDef)) :
    List ConditionDef → Except String (List (String × ConditionDef))
  | [] => Except.ok m
  | c :: rest =>
      match lookupName m c.name with
      | some existing =>
          if c.feedback_gain ≠ existing.feedback_gain ∨
              c.segments ≠ existing.segments then
            Except.error ("Duplicate condition name " ++ c.name ++
              " with different parameters. Give each condition a unique name.")
          else buildConditionMapFrom (updateAssoc m c.name c) rest
      | none => buildConditionMapFrom (updateAssoc m c.name c) rest

/-- The condition map `run_experiment` builds from the configured
condition list before constructing the trial handler. -/
def buildConditionMap (conditions : List ConditionDef) :
    Except String (List (String × ConditionDef)) :=
  buildConditionMapFrom [] conditions

/-! ### Helper lemmas -/

theorem foldl_min_mem (xs : List ℚ) : ∀ x : ℚ, xs.foldl min x ∈ x :: xs := by
  induction xs with
  | nil => intro x; simp
  | cons y ys ih =>
      intro x
      have h := ih (min x y)
      rw [List.foldl_cons]
      rcases List.mem_cons.mp h with h2 | h2
      · rcases min_choice x y with h1 | h1 <;> rw [h2, h1] <;> simp
      · exact List.mem_cons_of_mem _ (List.mem_cons_of_mem _ h2)

theorem foldl_min_le (xs : List ℚ) :
    ∀ x : ℚ, ∀ y ∈ x :: xs, xs.foldl min x ≤ y := by
  induction xs with
  | nil => intro x y hy; simp at hy; simp [hy]
  | cons z zs ih =>
      intro x y hy
      rw [List.foldl_cons]
      rcases List.mem_cons.mp hy with rfl | h
      · exact le_trans (ih (min y z) _ (List.mem_cons_self _ _)) (min_le_left y z)
      · rcases List.mem_cons.mp h with rfl | h2
        · exact le_trans (ih (min x y) _ (List.mem_cons_self _ _)) (min_le_right x y)
        · exact ih (min x z) y (List.mem_cons_of_mem _ h2)

theorem foldl_max_mem (xs : List ℚ) : ∀ x : ℚ, xs.foldl max x ∈ x :: xs := by
  induction xs with
  | nil => intro x; simp
  | cons y ys ih =>
      intro x
      have h := ih (max x y)
      rw [List.foldl_cons]
      rcases List.mem_cons.mp h with h2 | h2
      · rcases max_choice x y with h1 | h1 <;> rw [h2, h1] <;> simp
      · exact List.mem_cons_of_mem _ (List.mem_cons_of_mem _ h2)

theorem foldl_le_max (xs : List ℚ) :
    ∀ x : ℚ, ∀ y ∈ x :: xs, y ≤ xs.foldl max x := by
  induction xs with
  | nil => intro x y hy; simp at hy; simp [hy]
  | cons z zs ih =>
      intro x y hy
      rw [List.foldl_cons]
      rcases List.mem_cons.mp hy with rfl | h
      · exact le_trans (le_max_left y z) (ih (max y z) _ (List.mem_cons_self _ _))
      · rcases List.mem_cons.mp h with rfl | h2
        · exact le_trans (le_max_right x y) (ih (max x y) _ (List.mem_cons_self _ _))
        · exact ih (max x z) y (List.mem_cons_of_mem _ h2)

/-! ### Claims -/

/-- Claim C4: `calibrate_from_baseline` returns `(5.0, 2.0)` on empty
input; on any non-empty sample list it returns
`center = (max + min) / 2` and
`amplitude = max((max - min) / 2, min_amplitude)` (default `0.5`); in
particular `calibrate_from_baseline([7.0]) == (7.0, 0.5)` and
`calibrate_from_baseline([2,4,6,8,10]) == (6.0, 4.0)`. -/
theorem claim_C4 (x : ℚ) (xs : List ℚ) (m : ℚ) :
    calibrate_from_baseline [] m = (5, 2) ∧
    (∃ lo hi, lo ∈ x :: xs ∧ hi ∈ x :: xs ∧
      (∀ y ∈ x :: xs, lo ≤ y ∧ y ≤ hi) ∧
      calibrate_from_baseline (x :: xs) m
        = ((hi + lo) / 2, max ((hi - lo) / 2) m)) ∧
    calibrate_from_baseline [(7 : ℚ)] (1 / 2) = (7, 1 / 2) ∧
    calibrate_from_baseline [2, 4, 6, 8, 10] (1 / 2) = (6, 4) := by
  refine ⟨rfl, ?_, by norm_num [calibrate_from_baseline],
    by norm_num [calibrate_from_baseline]⟩
  refine ⟨xs.foldl min x, xs.foldl max x, foldl_min_mem xs x, foldl_max_mem xs x,
    fun y hy => ⟨foldl_min_le xs x y hy, foldl_le_max xs x y hy⟩, rfl⟩

/-- Claim C6: `apply_gain(buffer, gain, center)` is the elementwise
transform `center + gain * (value - center)`; with `gain == 1.0` the
result is value-equal to the input buffer (the source builds the distinct
copy with `list(buffer)`; object identity itself has no counterpart in a
value-level embedding), and with `gain == 0.0` every element of the result
equals `center`. -/
theorem claim_C6 (buffer : List ℚ) (gain center : ℚ) :
    apply_gain buffer gain center
      = buffer.map (fun f => center + gain * (f - center)) ∧
    apply_gain buffer 1 center = buffer ∧
    apply_gain buffer 0 center = buffer.map (fun _ => center) := by
  refine ⟨?_, by simp [apply_gain], ?_⟩
  · by_cases h : gain = 1
    · subst h
      have h1 : (fun f : ℚ => center + 1 * (f - center)) = fun f => f := by
        funext f; ring
      simp [apply_gain, h1]
    · simp [apply_gain, h]
  · have h0 : (0 : ℚ) ≠ 1 := by norm_num
    have h1 : (fun f : ℚ => center + 0 * (f - center)) = fun _ : ℚ => center := by
      funext f; ring
    simp [apply_gain, h0, h1]

/-- Claim C10: `ConditionDef` accepts an empty segments list (`segments`
defaults to the empty list), in which case `total_duration` is `0` and
`get_target(t)` raises `ZeroDivisionError` (`t % 0`, modelled as `none`)
for every `t`. -/
theorem claim_C10 (nm : String) (gn : ℚ) (c a t : ℝ) :
    ({ name := nm } : ConditionDef).segments = [] ∧
    (ConditionDef.mk nm [] gn).total_duration = 0 ∧
    (TargetGenerator.mk (ConditionDef.mk nm [] gn) c a).get_target t = none := by
  refine ⟨rfl, rfl, ?_⟩
  simp [TargetGenerator.get_target, pymod, ConditionDef.total_duration]

/-- Claim C5 (as stated) is refuted at a concrete faulted channel state:
with one sample queued and a recorded fatal error, `get_all` and
`get_latest` both raise `BreathBeltError` and leave the state unchanged —
so the queued pre-fault sample is returned by no consumer call (it is not
"retrievable exactly once" after the fault is recorded). -/
theorem claim_C5_counterexample :
    (BeltState.get_all ⟨[(1, 5)], some ("device gone")⟩).1
        = Except.error ("Reader thread failed: " ++ "device gone") ∧
    (BeltState.get_all ⟨[(1, 5)], some ("device gone")⟩).2
        = ⟨[(1, 5)], some ("device gone")⟩ ∧
    (BeltState.get_latest ⟨[(1, 5)], some ("device gone")⟩).1
        = Except.error ("Reader thread failed: " ++ "device gone") ∧
    (BeltState.get_latest ⟨[(1, 5)], some ("device gone")⟩).2
        = ⟨[(1, 5)], some ("device gone")⟩ :=
  ⟨rfl, rfl, rfl, rfl⟩

/-- Claim C5 (amended): after the reader thread records a fatal error,
every subsequent `get_all`/`get_latest` call raises the channel's
fatal-error condition and leaves the channel state unchanged (so the fault
is sticky and pre-fault samples are never returned by post-fault calls);
samples are retrievable exactly once only by a drain completed before the
fault is recorded: a pre-fault `get_all` returns the whole queue in FIFO
order and a second drain returns the empty list. -/
theorem claim_C5 (s : BeltState) (e : String) (he : s.error = some e)
    (q : List (ℚ × ℚ)) :
    (s.get_all.1 = Except.error ("Reader thread failed: " ++ e) ∧
      s.get_all.2 = s) ∧
    (s.get_latest.1 = Except.error ("Reader thread failed: " ++ e) ∧
      s.get_latest.2 = s) ∧
    ((BeltState.mk q none).get_all.1 = Except.ok q ∧
      ((BeltState.mk q none).get_all.2).get_all.1 = Except.ok []) := by
  obtain ⟨qs, err⟩ := s
  cases he
  exact ⟨⟨rfl, rfl⟩, ⟨rfl, rfl⟩, rfl, rfl⟩

/-- Witness for C5 at a concrete faulted state and concrete pre-fault
queue. -/
theorem claim_C5_witness :
    (BeltState.mk [(1, 5)] (some ("gone"))).error = some ("gone") ∧
    ((BeltState.get_all ⟨[(1, 5)], some ("gone")⟩).1
        = Except.error ("Reader thread failed: " ++ "gone") ∧
      (BeltState.get_all ⟨[(1, 5)], some ("gone")⟩).2
        = ⟨[(1, 5)], some ("gone")⟩) ∧
    ((BeltState.get_latest ⟨[(1, 5)], some ("gone")⟩).1
        = Except.error ("Reader thread failed: " ++ "gone") ∧
      (BeltState.get_latest ⟨[(1, 5)], some ("gone")⟩).2
        = ⟨[(1, 5)], some ("gone")⟩) ∧
    ((BeltState.mk [(2, 6)] none).get_all.1 = Except.ok [(2, 6)] ∧
      ((BeltState.mk [(2, 6)] none).get_all.2).get_all.1 = Except.ok []) :=
  ⟨rfl, claim_C5 ⟨[(1, 5)], some ("gone")⟩ ("gone") rfl [(2, 6)]⟩

theorem pymod_add_right (t D : ℝ) : pymod (t + D) D = pymod t D := by
  unfold pymod
  by_cases hD : D = 0
  · simp [hD]
  · rw [if_neg hD, if_neg hD]
    have h1 : (t + D) / D = t / D + 1 := by field_simp
    rw [h1, Int.floor_add_one]
    push_cast
    ring_nf

/-- Claim C3: for every condition with at least one segment, the target
pattern loops with period `total_duration`
(`get_target(t) == get_target(t + total_duration)`), and `get_target` is a
deterministic pure function of `t`: mapping it over any permutation of a
list of times yields a permutation of the same results (no hidden
state). -/
theorem claim_C3 (g : TargetGenerator)
    (hseg : g.condition.segments ≠ []) (t : ℝ) (ts1 ts2 : List ℝ)
    (hperm : ts1.Perm ts2) :
    g.get_target (t + (g.condition.total_duration : ℝ)) = g.get_target t ∧
    (ts1.map g.get_target).Perm (ts2.map g.get_target) := by
  refine ⟨?_, hperm.map _⟩
  unfold TargetGenerator.get_target
  rw [pymod_add_right]

/-- Fall-through of the segment walk: when `t_wrapped` is at or past the
end of all remaining segments (their durations being nonnegative), every
`t_wrapped < seg_end` test fails and the walk returns `center`. -/
theorem segmentWalk_of_total_le (c a : ℝ) (segs : List SegmentDef) :
    ∀ elapsed tw : ℝ, (∀ s ∈ segs, (0 : ℚ) ≤ s.duration) →
      elapsed + ((segs.map SegmentDef.duration).sum : ℝ) ≤ tw →
      segmentWalk c a tw segs elapsed = c := by
  induction segs with
  | nil => intro _ _ _ _; rfl
  | cons seg rest ih =>
      intro elapsed tw hnn hle
      have hsum : (0 : ℚ) ≤ (rest.map SegmentDef.duration).sum :=
        List.sum_nonneg (by
          intro d hd
          obtain ⟨s, hs, rfl⟩ := List.mem_map.mp hd
          exact hnn s (List.mem_cons_of_mem _ hs))
      have hle2 : elapsed + (seg.duration : ℝ) ≤ tw := by
        have h1 : ((0 : ℚ) : ℝ) ≤ ((rest.map SegmentDef.duration).sum : ℝ) := by
          exact_mod_cast hsum
        have h2 : elapsed + (seg.duration : ℝ)
            ≤ elapsed + (((seg :: rest).map SegmentDef.duration).sum : ℝ) := by
          simp only [List.map_cons, List.sum_cons]
          push_cast
          push_cast at h1
          linarith
        linarith
      rw [segmentWalk, if_neg (not_lt.mpr hle2)]
      apply ih (elapsed + (seg.duration : ℝ)) tw
        (fun s hs => hnn s (List.mem_cons_of_mem _ hs))
      have h3 : elapsed + (((seg :: rest).map SegmentDef.duration).sum : ℝ) ≤ tw := hle
      simp only [List.map_cons, List.sum_cons] at h3
      push_cast at h3 ⊢
      linarith

/-- Claim C9: for a condition with at least one segment (each with
positive frequency and at least one cycle, the data-model invariant),
`get_target` never raises — the total duration is positive so the time
wrap succeeds — and if the wrapped time lands exactly on the upper
boundary `total_duration`, the walk falls past every segment and returns
`center` rather than raising. -/
theorem claim_C9 (g : TargetGenerator) (t : ℝ)
    (hne : g.condition.segments ≠ [])
    (hpos : ∀ s ∈ g.condition.segments, 0 < s.freq_hz ∧ 1 ≤ s.n_cycles) :
    (g.get_target t).isSome = true ∧
    segmentWalk g.center g.amplitude (g.condition.total_duration : ℝ)
      g.condition.segments 0 = g.center := by
  have hdurpos : ∀ s ∈ g.condition.segments, (0 : ℚ) < s.duration := by
    intro s hs
    obtain ⟨hf, hn⟩ := hpos s hs
    have hn1 : (0 : ℚ) < (s.n_cycles : ℚ) := by exact_mod_cast hn
    exact div_pos hn1 hf
  have hDpos : (0 : ℚ) < g.condition.total_duration := by
    unfold ConditionDef.total_duration
    apply List.sum_pos
    · intro d hd
      obtain ⟨s, hs, rfl⟩ := List.mem_map.mp hd
      exact hdurpos s hs
    · simpa using hne
  constructor
  · have hD0 : ((g.condition.total_duration : ℚ) : ℝ) ≠ 0 := by
      exact_mod_cast ne_of_gt hDpos
    unfold TargetGenerator.get_target pymod
    rw [if_neg hD0]
    rfl
  · apply segmentWalk_of_total_le
    · exact fun s hs => le_of_lt (hdurpos s hs)
    · unfold ConditionDef.total_duration
      simp

/-- Witness for C9 at a concrete single-segment generator and time. -/
theorem claim_C9_witness :
    ((⟨"s", [⟨1, 1⟩], 1⟩ : ConditionDef).segments ≠ []) ∧
    (∀ s ∈ (⟨"s", [⟨1, 1⟩], 1⟩ : ConditionDef).segments,
      0 < s.freq_hz ∧ 1 ≤ s.n_cycles) ∧
    (((TargetGenerator.mk ⟨"s", [⟨1, 1⟩], 1⟩ 2 3).get_target 5).isSome = true ∧
      segmentWalk 2 3 ((⟨"s", [⟨1, 1⟩], 1⟩ : ConditionDef).total_duration : ℝ)
        (⟨"s", [⟨1, 1⟩], 1⟩ : ConditionDef).segments 0 = 2) := by
  refine ⟨by decide, by decide, ?_⟩
  exact claim_C9 (TargetGenerator.mk ⟨"s", [⟨1, 1⟩], 1⟩ 2 3) 5 (by decide)
    (by decide)

/-- Witness for C3 at a concrete generator, time and permutation. -/
theorem claim_C3_witness :
    ((⟨"s", [⟨1, 1⟩], 1⟩ : ConditionDef).segments ≠ []) ∧
    ([(0 : ℝ), 1].Perm [1, 0]) ∧
    ((TargetGenerator.mk ⟨"s", [⟨1, 1⟩], 1⟩ 2 3).get_target
        (0 + ((⟨"s", [⟨1, 1⟩], 1⟩ : ConditionDef).total_duration : ℝ))
      = (TargetGenerator.mk ⟨"s", [⟨1, 1⟩], 1⟩ 2 3).get_target 0 ∧
    ([(0 : ℝ), 1].map
        (TargetGenerator.mk ⟨"s", [⟨1, 1⟩], 1⟩ 2 3).get_target).Perm
      ([1, 0].map (TargetGenerator.mk ⟨"s", [⟨1, 1⟩], 1⟩ 2 3).get_target)) := by
  refine ⟨by decide, List.Perm.swap 1 0 [], ?_⟩
  exact claim_C3 (TargetGenerator.mk ⟨"s", [⟨1, 1⟩], 1⟩ 2 3) (by decide) 0
    [0, 1] [1, 0] (List.Perm.swap 1 0 [])

theorem segStart_nonneg (segs : List SegmentDef) (i : ℕ)
    (h : ∀ s ∈ segs, (0 : ℚ) ≤ s.duration) : 0 ≤ segStart segs i :=
  List.sum_nonneg (by
    intro d hd
    obtain ⟨s, hs, rfl⟩ := List.mem_map.mp hd
    exact h s (List.mem_of_mem_take hs))

theorem segStart_succ (seg : SegmentDef) (rest : List SegmentDef) (j : ℕ) :
    segStart (seg :: rest) (j + 1) = seg.duration + segStart rest j := by
  simp [segStart, List.take_succ_cons]

/-- The walk returns the sine of the active segment: if `tw` lies in the
half-open span of segment `i` (and the durations walked over are
nonnegative, so the walk cannot stop early), the result is
`center + amplitude * sin(2 pi freq_i t_local)` with
`t_local = tw - (elapsed + segStart i)`. -/
theorem segmentWalk_active (c a : ℝ) (segs : List SegmentDef) :
    ∀ (i : ℕ) (hi : i < segs.length) (elapsed tw : ℝ),
      (∀ s ∈ segs, (0 : ℚ) ≤ s.duration) →
      elapsed + (segStart segs i : ℝ) ≤ tw →
      tw < elapsed + (segStart segs i : ℝ)
        + ((segs.get ⟨i, hi⟩).duration : ℝ) →
      segmentWalk c a tw segs elapsed
        = c + a * Real.sin (2 * Real.pi * ((segs.get ⟨i, hi⟩).freq_hz : ℝ) *
            (tw - (elapsed + (segStart segs i : ℝ)))) := by
  induction segs with
  | nil => intro i hi; simp at hi
  | cons seg rest ih =>
      intro i hi elapsed tw hnn hlo hhi
      cases i with
      | zero =>
          have hs0 : segStart (seg :: rest) 0 = 0 := rfl
          have hget0 : (seg :: rest).get ⟨0, hi⟩ = seg := rfl
          rw [hs0] at hlo hhi ⊢
          rw [hget0] at hhi ⊢
          have hcond : tw < elapsed + (seg.duration : ℝ) := by
            push_cast at hhi
            simpa using hhi
          rw [segmentWalk, if_pos hcond]
          push_cast
          ring_nf
      | succ j =>
          have hj : j < rest.length := by
            simpa using hi
          have hs := segStart_succ seg rest j
          rw [hs] at hlo hhi ⊢
          have hrest0 : (0 : ℚ) ≤ segStart rest j :=
            segStart_nonneg rest j
              (fun s hs2 => hnn s (List.mem_cons_of_mem _ hs2))
          have hcond : ¬ tw < elapsed + (seg.duration : ℝ) := by
            push_cast at hlo
            have h1 : ((0 : ℚ) : ℝ) ≤ (segStart rest j : ℝ) := by
              exact_mod_cast hrest0
            push_cast at h1
            push_cast
            linarith
          rw [segmentWalk, if_neg hcond]
          have hlo2 : elapsed + (seg.duration : ℝ) + (segStart rest j : ℝ) ≤ tw := by
            push_cast at hlo ⊢
            linarith
          have hhi2 : tw < elapsed + (seg.duration : ℝ) + (segStart rest j : ℝ)
              + ((rest.get ⟨j, hj⟩).duration : ℝ) := by
            push_cast at hhi ⊢
            have hget : (seg :: rest).get ⟨j + 1, hi⟩ = rest.get ⟨j, hj⟩ := rfl
            rw [hget] at hhi
            linarith
          have hfreq : (seg :: rest).get ⟨j + 1, hi⟩ = rest.get ⟨j, hj⟩ := rfl
          rw [hfreq]
          rw [ih j hj (elapsed + (seg.duration : ℝ)) tw
            (fun s hs2 => hnn s (List.mem_cons_of_mem _ hs2)) hlo2 hhi2]
          push_cast
          ring_nf

/-- Evaluation of `get_target` on a single-segment, single-cycle condition
at a fraction `r` of the cycle (with `0 ≤ r < 1`): the wrapped time is the
input itself and the result is `center + amplitude * sin(2 pi r)`. -/
theorem get_target_single (c a : ℝ) (f : ℚ) (hf : 0 < f) (nm : String)
    (gn : ℚ) (r : ℝ) (hr0 : 0 ≤ r) (hr1 : r < 1) :
    (TargetGenerator.mk ⟨nm, [⟨f, 1⟩], gn⟩ c a).get_target
        (r * ((SegmentDef.mk f 1).duration : ℝ))
      = some (c + a * Real.sin (2 * Real.pi * r)) := by
  have hfR : (0 : ℝ) < (f : ℝ) := by exact_mod_cast hf
  have hfne : (f : ℝ) ≠ 0 := ne_of_gt hfR
  have hdq : (SegmentDef.mk f 1).duration = 1 / f := by
    simp [SegmentDef.duration]
  have hD : (0 : ℝ) < ((SegmentDef.mk f 1).duration : ℝ) := by
    rw [hdq]
    push_cast
    positivity
  have hDne : ((SegmentDef.mk f 1).duration : ℝ) ≠ 0 := ne_of_gt hD
  have htot : (ConditionDef.mk nm [⟨f, 1⟩] gn).total_duration
      = (SegmentDef.mk f 1).duration := by
    simp [ConditionDef.total_duration]
  set D : ℝ := ((SegmentDef.mk f 1).duration : ℝ) with hDdef
  have hfloor : ⌊r * D / D⌋ = 0 := by
    rw [mul_div_assoc, div_self hDne, mul_one]
    exact Int.floor_eq_zero_iff.mpr ⟨hr0, hr1⟩
  have hp : pymod (r * D) ((ConditionDef.mk nm [⟨f, 1⟩] gn).total_duration : ℝ)
      = some (r * D) := by
    rw [htot]
    unfold pymod
    rw [if_neg hDne, hfloor]
    norm_num
  have hcond : r * D < 0 + D := by
    have := mul_lt_mul_of_pos_right hr1 hD
    simpa using this
  have harg : 2 * Real.pi * (f : ℝ) * (r * D - 0) = 2 * Real.pi * r := by
    have hDval : D = 1 / (f : ℝ) := by
      rw [hDdef, hdq]
      push_cast
      ring
    rw [hDval]
    field_simp
    ring
  simp only [TargetGenerator.get_target, hp]
  rw [segmentWalk, if_pos hcond, harg]

/-- Claim C2 (counterexample to the claim as stated): for the
single-segment condition with `freq_hz = 1` and `n_cycles = 2` (duration
2), center 0 and amplitude 1, `get_target(duration/4) = get_target(1/2) =
sin(pi) = 0`, not `center + amplitude = 1` — the quarter-duration identity
fails for single-segment conditions with more than one cycle. -/
theorem claim_C2_counterexample :
    (TargetGenerator.mk ⟨"s", [⟨1, 2⟩], 1⟩ 0 1).get_target
        (((SegmentDef.mk 1 2).duration : ℝ) / 4) ≠ some (0 + 1) := by
  have hdq : (SegmentDef.mk (1 : ℚ) 2).duration = 2 := by
    simp [SegmentDef.duration]
  have htot : (ConditionDef.mk ("s") [⟨1, 2⟩] 1).total_duration = 2 := by
    simp [ConditionDef.total_duration, hdq]
  have hval : (TargetGenerator.mk ⟨"s", [⟨1, 2⟩], 1⟩ 0 1).get_target
      (((SegmentDef.mk 1 2).duration : ℝ) / 4) = some 0 := by
    have hp : pymod (((SegmentDef.mk (1 : ℚ) 2).duration : ℝ) / 4)
        (((ConditionDef.mk ("s") [⟨1, 2⟩] 1).total_duration : ℚ) : ℝ)
        = some (1 / 2) := by
      rw [htot, hdq]
      unfold pymod
      rw [if_neg (by push_cast; norm_num : ¬ (((2 : ℚ) : ℝ) = 0))]
      push_cast
      rw [show (2 : ℝ) / 4 / 2 = 1 / 4 by norm_num]
      rw [show ⌊(1 / 4 : ℝ)⌋ = 0 from Int.floor_eq_zero_iff.mpr (by
        constructor <;> norm_num)]
      norm_num
    simp only [TargetGenerator.get_target, hp]
    rw [segmentWalk]
    rw [if_pos (by rw [hdq]; push_cast; norm_num)]
    have harg : 2 * Real.pi * (((SegmentDef.mk (1 : ℚ) 2).freq_hz : ℚ) : ℝ)
        * ((1 : ℝ) / 2 - 0) = Real.pi := by
      norm_num
      ring
    rw [harg, Real.sin_pi]
    norm_num
  rw [hval]
  intro h
  have := Option.some.inj h
  norm_num at this

/-- Claim C2 (amended): for every condition and time whose wrapped time
falls inside segment `i` (durations nonnegative), `get_target(t)` equals
`center + amplitude * sin(2 pi freq_hz t_local)` with `t_local` the time
elapsed within the active segment; and for a single-segment condition with
`n_cycles = 1`, `get_target(0) = center`,
`get_target(duration/4) = center + amplitude` and
`get_target(3 duration/4) = center - amplitude` (exactly, in real
arithmetic).  The claim as stated — quarter-duration identities for every
single-segment condition — fails when `n_cycles > 1`. -/
theorem claim_C2 (g : TargetGenerator) (t tw : ℝ) (i : ℕ)
    (hi : i < g.condition.segments.length)
    (hnn : ∀ s ∈ g.condition.segments, (0 : ℚ) ≤ s.duration)
    (hw : pymod t (g.condition.total_duration : ℝ) = some tw)
    (hlo : (segStart g.condition.segments i : ℝ) ≤ tw)
    (hhi : tw < (segStart g.condition.segments i : ℝ)
      + ((g.condition.segments.get ⟨i, hi⟩).duration : ℝ))
    (c a : ℝ) (f : ℚ) (hf : 0 < f) (nm : String) (gn : ℚ) :
    g.get_target t = some (g.center + g.amplitude *
      Real.sin (2 * Real.pi * ((g.condition.segments.get ⟨i, hi⟩).freq_hz : ℝ) *
        (tw - (segStart g.condition.segments i : ℝ)))) ∧
    (TargetGenerator.mk ⟨nm, [⟨f, 1⟩], gn⟩ c a).get_target 0 = some c ∧
    (TargetGenerator.mk ⟨nm, [⟨f, 1⟩], gn⟩ c a).get_target
      (((SegmentDef.mk f 1).duration : ℝ) / 4) = some (c + a) ∧
    (TargetGenerator.mk ⟨nm, [⟨f, 1⟩], gn⟩ c a).get_target
      (3 * ((SegmentDef.mk f 1).duration : ℝ) / 4) = some (c - a) := by
  refine ⟨?_, ?_, ?_, ?_⟩
  · simp only [TargetGenerator.get_target, hw]
    rw [segmentWalk_active g.center g.amplitude g.condition.segments i hi 0 tw
      hnn (by simpa using hlo) (by push_cast at hhi ⊢; linarith)]
    push_cast
    ring_nf
  · have h := get_target_single c a f hf nm gn 0 le_rfl one_pos
    rw [zero_mul] at h
    rw [h, show (2 : ℝ) * Real.pi * 0 = 0 by ring, Real.sin_zero]
    norm_num
  · have h := get_target_single c a f hf nm gn (1 / 4) (by norm_num) (by norm_num)
    rw [show (1 / 4 : ℝ) * ((SegmentDef.mk f 1).duration : ℝ)
      = ((SegmentDef.mk f 1).duration : ℝ) / 4 by ring] at h
    rw [h]
    have harg : 2 * Real.pi * (1 / 4 : ℝ) = Real.pi / 2 := by ring
    rw [harg, Real.sin_pi_div_two]
    norm_num
  · have h := get_target_single c a f hf nm gn (3 / 4) (by norm_num) (by norm_num)
    rw [show (3 / 4 : ℝ) * ((SegmentDef.mk f 1).duration : ℝ)
      = 3 * ((SegmentDef.mk f 1).duration : ℝ) / 4 by ring] at h
    rw [h]
    have harg : 2 * Real.pi * (3 / 4 : ℝ) = -(Real.pi / 2) + 2 * Real.pi := by
      ring
    rw [harg, Real.sin_add_two_pi, Real.sin_neg, Real.sin_pi_div_two]
    rw [show c + a * (-1 : ℝ) = c - a by ring]

/-- Witness for C2 at a concrete single-segment single-cycle generator:
time 0 inside segment 0, and the three quarter-cycle evaluations. -/
theorem claim_C2_witness :
    (0 : ℚ) < 1 ∧
    pymod 0 (((ConditionDef.mk ("s") [⟨1, 1⟩] 1).total_duration : ℚ) : ℝ)
      = some 0 ∧
    ((TargetGenerator.mk ⟨"s", [⟨1, 1⟩], 1⟩ 0 1).get_target 0
        = some ((0 : ℝ) + 1 * Real.sin (2 * Real.pi * ((1 : ℚ) : ℝ)
          * (0 - (segStart [⟨(1 : ℚ), 1⟩] 0 : ℝ)))) ∧
      (TargetGenerator.mk ⟨"s", [⟨1, 1⟩], 1⟩ 0 1).get_target 0 = some 0 ∧
      (TargetGenerator.mk ⟨"s", [⟨1, 1⟩], 1⟩ 0 1).get_target
        (((SegmentDef.mk 1 1).duration : ℝ) / 4) = some (0 + 1) ∧
      (TargetGenerator.mk ⟨"s", [⟨1, 1⟩], 1⟩ 0 1).get_target
        (3 * ((SegmentDef.mk 1 1).duration : ℝ) / 4) = some (0 - 1)) := by
  have hw : pymod 0 (((ConditionDef.mk ("s") [⟨1, 1⟩] 1).total_duration : ℚ) : ℝ)
      = some 0 := by
    unfold pymod
    norm_num [ConditionDef.total_duration, SegmentDef.duration]
  refine ⟨by norm_num, hw, ?_⟩
  have h := claim_C2 (TargetGenerator.mk ⟨"s", [⟨1, 1⟩], 1⟩ 0 1) 0 0 0
    (by decide)
    (by intro s hs; simp at hs; subst hs; norm_num [SegmentDef.duration])
    hw
    (by norm_num [segStart])
    (by norm_num [segStart, SegmentDef.duration])
    0 1 1 (by norm_num) "s" 1
  exact ⟨h.1, h.2.1, h.2.2.1, h.2.2.2⟩

theorem hsv_to_rgb_green : hsv_to_rgb (1 / 3) 1 1 = (0, 1, 0) := by
  norm_num [hsv_to_rgb, pytrunc]

theorem hsv_to_rgb_red : hsv_to_rgb 0 1 1 = (1, 0, 0) := by
  norm_num [hsv_to_rgb, pytrunc]

/-- When the normalized clamped error reaches `1`, the graded color is the
"worst" anchor: pure red, `(1, -1, -1)` in PsychoPy's color space. -/
theorem graded_of_min_one (e me : ℝ) (h : min (|e| / me) 1 = 1) :
    graded_dot_color e me = (1, -1, -1) := by
  unfold graded_dot_color
  rw [h]
  norm_num [Real.sqrt_one, hsv_to_rgb_red]

/-- Claim C7: for `max_error > 0`, the graded feedback-level mapping sends
error `0` exactly to the "best" anchor (green, `(-1, 1, -1)`), sends
`error == max_error` exactly to the "worst" anchor (red, `(1, -1, -1)`),
clamps every error of magnitude greater than `max_error` to the "worst"
anchor, and is symmetric in the sign of the error; the compression
`t = (|error|/max_error)^0.5` clamped to `[0, 1]` is the `min`/`sqrt` in
`graded_dot_color` itself. -/
theorem claim_C7 (max_error e e2 : ℝ) (hme : 0 < max_error)
    (he : max_error < |e|) :
    graded_dot_color 0 max_error = (-1, 1, -1) ∧
    graded_dot_color max_error max_error = (1, -1, -1) ∧
    graded_dot_color e max_error = (1, -1, -1) ∧
    graded_dot_color e2 max_error = graded_dot_color (-e2) max_error := by
  refine ⟨?_, ?_, ?_, ?_⟩
  · unfold graded_dot_color
    rw [abs_zero, zero_div]
    rw [show min (0 : ℝ) 1 = 0 from min_eq_left zero_le_one]
    norm_num [Real.sqrt_zero, hsv_to_rgb_green]
  · apply graded_of_min_one
    rw [abs_of_pos hme, div_self (ne_of_gt hme)]
    exact min_self 1
  · apply graded_of_min_one
    have h1 : (1 : ℝ) < |e| / max_error := (one_lt_div hme).mpr he
    exact min_eq_right (le_of_lt h1)
  · simp only [graded_dot_color, abs_neg]

/-- Witness for C7 at the configured default `max_error = 3` (the
`graded_max_error_n` default), a clamped error `7` and a sign-symmetry
probe `-2`. -/
theorem claim_C7_witness :
    (0 : ℝ) < 3 ∧ (3 : ℝ) < |(7 : ℝ)| ∧
    (graded_dot_color 0 3 = (-1, 1, -1) ∧
      graded_dot_color 3 3 = (1, -1, -1) ∧
      graded_dot_color 7 3 = (1, -1, -1) ∧
      graded_dot_color (-2) 3 = graded_dot_color (-(-2)) 3) := by
  refine ⟨by norm_num, by rw [abs_of_pos] <;> norm_num, ?_⟩
  exact claim_C7 3 7 (-2) (by norm_num) (by rw [abs_of_pos] <;> norm_num)

theorem pytruncQ_of_nonneg (q : ℚ) (h : 0 ≤ q) : pytruncQ q = ⌊q⌋ := by
  unfold pytruncQ
  rw [if_neg (not_lt.mpr h)]

/-- For the low clip index, Python truncation (`int()`) and floor agree
once clamped into `[0, n-1]`: they differ only on negative non-integer
values, which the clamp sends to `0` either way. -/
theorem clamp_lo_trunc_floor (q : ℚ) (n : ℤ) (hn : 1 ≤ n) :
    max 0 (min (pytruncQ q) (n - 1)) = max 0 (min ⌊q⌋ (n - 1)) := by
  by_cases h : 0 ≤ q
  · rw [pytruncQ_of_nonneg q h]
  · push_neg at h
    have h1 : pytruncQ q ≤ 0 := by
      unfold pytruncQ
      rw [if_pos h]
      have h2 : (0 : ℤ) ≤ ⌊-q⌋ := Int.floor_nonneg.mpr (by linarith)
      omega
    have h3 : ⌊q⌋ ≤ 0 := by
      have h4 := Int.floor_mono (le_of_lt h)
      rwa [Int.floor_zero] at h4
    rw [min_eq_left (by omega), min_eq_left (by omega),
      max_eq_left h1, max_eq_left h3]

/-- Same for the high clip index `int(n*p/100) - 1`, clamped below by the
(nonnegative) low index. -/
theorem clamp_hi_trunc_floor (q : ℚ) (n lo : ℤ) (hn : 1 ≤ n) (hlo : 0 ≤ lo) :
    max lo (min (pytruncQ q - 1) (n - 1)) = max lo (min (⌊q⌋ - 1) (n - 1)) := by
  by_cases h : 0 ≤ q
  · rw [pytruncQ_of_nonneg q h]
  · push_neg at h
    have h1 : pytruncQ q ≤ 0 := by
      unfold pytruncQ
      rw [if_pos h]
      have h2 : (0 : ℤ) ≤ ⌊-q⌋ := Int.floor_nonneg.mpr (by linarith)
      omega
    have h3 : ⌊q⌋ ≤ 0 := by
      have h4 := Int.floor_mono (le_of_lt h)
      rwa [Int.floor_zero] at h4
    rw [min_eq_left (by omega), min_eq_left (by omega),
      max_eq_left (by omega), max_eq_left (by omega)]

/-- Claim C1: on a non-empty list of range-calibration samples the
computation sorts the samples (characterized here as the unique sorted
permutation), selects the clipped range by index arithmetic at the
configured percentiles — low index `floor(n*percentile_lo/100)`, high
index `floor(n*percentile_hi/100) - 1`, both clamped into valid bounds —
and returns center = midpoint of the clipped range, amplitude =
`max(scale * half the clipped range, 0.5)`, and the display range = the
clipped range padded by 20% of the clipped span on each side. -/
theorem claim_C1 (forces : List ℚ) (plo phi : ℤ) (scale : ℚ)
    (hne : forces ≠ []) (sorted : List ℚ) (hperm : sorted.Perm forces)
    (hsorted : sorted.Sorted (· ≤ ·)) :
    range_cal_results forces plo phi scale =
      (let n : ℤ := forces.length
       let lo_idx : ℤ := max 0 (min ⌊((n * plo : ℤ) : ℚ) / 100⌋ (n - 1))
       let hi_idx : ℤ :=
         max lo_idx (min (⌊((n * phi : ℤ) : ℚ) / 100⌋ - 1) (n - 1))
       let gmin : ℚ := sorted.getD lo_idx.toNat 0
       let gmax : ℚ := sorted.getD hi_idx.toNat 0
       some ((gmax + gmin) / 2, max (scale * ((gmax - gmin) / 2)) (1 / 2),
         gmin - (gmax - gmin) * (1 / 5), gmax + (gmax - gmin) * (1 / 5))) := by
  have hsEq : forces.insertionSort (· ≤ ·) = sorted :=
    List.eq_of_perm_of_sorted ((List.perm_insertionSort _ _).trans hperm.symm)
      (List.sorted_insertionSort _ _) hsorted
  have hlen : sorted.length = forces.length := hperm.length_eq
  have hn1 : (1 : ℤ) ≤ (forces.length : ℤ) := by
    have h0 : 0 < forces.length := List.length_pos.mpr hne
    omega
  simp only [range_cal_results, if_neg hne, hsEq, hlen]
  rw [clamp_lo_trunc_floor _ _ hn1]
  rw [clamp_hi_trunc_floor _ _ _ hn1 (le_max_left 0 _)]
  ring_nf

/-- Witness for C1 on the concrete sample list `[3, 1, 2]` with the
config defaults (percentiles 5/95, scale 0.8). -/
theorem claim_C1_witness :
    ([3, 1, 2] : List ℚ) ≠ [] ∧
    ([1, 2, 3] : List ℚ).Perm [3, 1, 2] ∧
    ([1, 2, 3] : List ℚ).Sorted (· ≤ ·) ∧
    range_cal_results [3, 1, 2] 5 95 (4 / 5)
      = some (3 / 2, 1 / 2, 4 / 5, 11 / 5) := by
  refine ⟨by decide, by decide, by decide, ?_⟩
  have h := claim_C1 [3, 1, 2] 5 95 (4 / 5) (by decide) [1, 2, 3]
    (by decide) (by decide)
  rw [h]
  norm_num [List.getD]

theorem lookupName_updateAssoc_self (m : List (String × ConditionDef))
    (k : String) (v : ConditionDef) :
    lookupName (updateAssoc m k v) k = some v := by
  induction m with
  | nil => simp [updateAssoc, lookupName]
  | cons p rest ih =>
      obtain ⟨k1, v1⟩ := p
      by_cases h : k1 = k
      · simp [updateAssoc, h, lookupName]
      · simp [updateAssoc, h, lookupName, ih]

theorem lookupName_updateAssoc_ne (m : List (String × ConditionDef))
    (k k2 : String) (v : ConditionDef) (h : k2 ≠ k) :
    lookupName (updateAssoc m k v) k2 = lookupName m k2 := by
  induction m with
  | nil =>
      simp only [updateAssoc, lookupName]
      rw [if_neg (fun h2 => h (Eq.symm h2))]
  | cons p rest ih =>
      obtain ⟨k1, v1⟩ := p
      by_cases h1 : k1 = k
      · subst h1
        simp only [updateAssoc, if_pos rfl, lookupName]
        rw [if_neg (fun h2 => h h2.symm), if_neg (fun h2 => h h2.symm)]
      · simp only [updateAssoc, if_neg h1, lookupName]
        by_cases h2 : k1 = k2
        · rw [if_pos h2, if_pos h2]
        · rw [if_neg h2, if_neg h2, ih]

/-- Invariant of the condition-map-building loop: if the fold over `l`
starting from map `m` succeeds, then every condition in `l` whose name is
already mapped in `m` agrees with the mapped value on `feedback_gain` and
`segments`. -/
theorem buildOk_lookup : ∀ (l : List ConditionDef)
    (m : List (String × ConditionDef)),
    (buildConditionMapFrom m l).isOk = true →
    ∀ d ∈ l, ∀ v, lookupName m d.name = some v →
      d.feedback_gain = v.feedback_gain ∧ d.segments = v.segments := by
  intro l
  induction l with
  | nil => intro m _ d hd; simp at hd
  | cons c rest ih =>
      intro m hok d hd v hv
      cases hlk : lookupName m c.name with
      | some existing =>
          simp only [buildConditionMapFrom, hlk] at hok
          by_cases hdiff : c.feedback_gain ≠ existing.feedback_gain ∨
              c.segments ≠ existing.segments
          · rw [if_pos hdiff] at hok
            simp [Except.isOk, Except.toBool] at hok
          · rw [if_neg hdiff] at hok
            push_neg at hdiff
            obtain ⟨hg, hs⟩ := hdiff
            rcases List.mem_cons.mp hd with rfl | hd2
            · rw [hlk] at hv
              obtain rfl := Option.some.inj hv
              exact ⟨hg, hs⟩
            · by_cases hn : d.name = c.name
              · have hvex : v = existing := by
                  rw [hn, hlk] at hv
                  exact (Option.some.inj hv).symm
                have hdc := ih (updateAssoc m c.name c) hok d hd2 c
                  (by rw [hn]; exact lookupName_updateAssoc_self m c.name c)
                subst hvex
                exact ⟨hdc.1.trans hg, hdc.2.trans hs⟩
              · exact ih (updateAssoc m c.name c) hok d hd2 v
                  (by rw [lookupName_updateAssoc_ne m c.name d.name c hn]
                      exact hv)
      | none =>
          simp only [buildConditionMapFrom, hlk] at hok
          rcases List.mem_cons.mp hd with rfl | hd2
          · rw [hlk] at hv
            cases hv
          · by_cases hn : d.name = c.name
            · rw [hn, hlk] at hv
              cases hv
            · exact ih (updateAssoc m c.name c) hok d hd2 v
                (by rw [lookupName_updateAssoc_ne m c.name d.name c hn]
                    exact hv)

/-- If the condition-map-building loop succeeds, any two listed conditions
with the same name agree on `feedback_gain` and `segments`. -/
theorem buildOk_pairwise : ∀ (l : List ConditionDef)
    (m : List (String × ConditionDef)),
    (buildConditionMapFrom m l).isOk = true →
    ∀ c1 ∈ l, ∀ c2 ∈ l, c1.name = c2.name →
      c1.feedback_gain = c2.feedback_gain ∧ c1.segments = c2.segments := by
  intro l
  induction l with
  | nil => intro m _ c1 h; simp at h
  | cons c rest ih =>
      intro m hok c1 h1 c2 h2 hname
      have step : (buildConditionMapFrom (updateAssoc m c.name c) rest).isOk
          = true := by
        cases hlk : lookupName m c.name with
        | some existing =>
            simp only [buildConditionMapFrom, hlk] at hok
            by_cases hdiff : c.feedback_gain ≠ existing.feedback_gain ∨
                c.segments ≠ existing.segments
            · rw [if_pos hdiff] at hok
              simp [Except.isOk, Except.toBool] at hok
            · rw [if_neg hdiff] at hok
              exact hok
        | none =>
            simp only [buildConditionMapFrom, hlk] at hok
            exact hok
      rcases List.mem_cons.mp h1 with rfl | h1r
      · rcases List.mem_cons.mp h2 with rfl | h2r
        · exact ⟨rfl, rfl⟩
        · have h3 := buildOk_lookup rest (updateAssoc m c1.name c1) step c2
            h2r c1 (by rw [← hname]; exact lookupName_updateAssoc_self m _ c1)
          exact ⟨h3.1.symm, h3.2.symm⟩
      · rcases List.mem_cons.mp h2 with rfl | h2r
        · have h3 := buildOk_lookup rest (updateAssoc m c2.name c2) step c1
            h1r c2 (by rw [hname]; exact lookupName_updateAssoc_self m _ c2)
          exact h3
        · exact ih (updateAssoc m c.name c) step c1 h1r c2 h2r hname

/-- Claim C8: if the configured condition list contains two conditions
with the same name but differing `segments` or `feedback_gain`, the
condition map `run_experiment` builds before the trial loop fails with a
`ValueError` (the `Except` result is not `ok`); the duplicate is never
silently resolved by keeping one of the two definitions. -/
theorem claim_C8 (conditions : List ConditionDef) (c1 c2 : ConditionDef)
    (h1 : c1 ∈ conditions) (h2 : c2 ∈ conditions) (hname : c1.name = c2.name)
    (hdiff : c1.segments ≠ c2.segments ∨ c1.feedback_gain ≠ c2.feedback_gain) :
    (buildConditionMap conditions).isOk = false := by
  by_contra hok
  simp only [Bool.not_eq_false] at hok
  unfold buildConditionMap at hok
  have hp := buildOk_pairwise conditions [] hok c1 h1 c2 h2 hname
  rcases hdiff with hd | hd
  · exact hd hp.2
  · exact hd hp.1

/-- Witness for C8: two conditions named "a" that differ in
`feedback_gain`; building the condition map fails. -/
theorem claim_C8_witness :
    ((⟨"a", [⟨1, 1⟩], 1⟩ : ConditionDef) ∈
      ([⟨"a", [⟨1, 1⟩], 1⟩, ⟨"a", [⟨1, 1⟩], 2⟩] : List ConditionDef)) ∧
    ((⟨"a", [⟨1, 1⟩], 2⟩ : ConditionDef) ∈
      ([⟨"a", [⟨1, 1⟩], 1⟩, ⟨"a", [⟨1, 1⟩], 2⟩] : List ConditionDef)) ∧
    (⟨"a", [⟨1, 1⟩], 1⟩ : ConditionDef).name
      = (⟨"a", [⟨1, 1⟩], 2⟩ : ConditionDef).name ∧
    (⟨"a", [⟨1, 1⟩], 1⟩ : ConditionDef).feedback_gain
      ≠ (⟨"a", [⟨1, 1⟩], 2⟩ : ConditionDef).feedback_gain ∧
    (buildConditionMap
      [⟨"a", [⟨1, 1⟩], 1⟩, ⟨"a", [⟨1, 1⟩], 2⟩]).isOk = false := by
  refine ⟨by decide, by decide, rfl, by norm_num, ?_⟩
  exact claim_C8 [⟨"a", [⟨1, 1⟩], 1⟩, ⟨"a", [⟨1, 1⟩], 2⟩]
    ⟨"a", [⟨1, 1⟩], 1⟩ ⟨"a", [⟨1, 1⟩], 2⟩ (by decide) (by decide) rfl
    (Or.inr (by norm_num))

end Respyra
